import Mathlib

/-!
# Verification of the cosmos-dumper streaming export/import pipeline

Shallow embedding of `src/cosmos_dumper/cli.py`: the bounded writer that
serializes export batches, the import-job discovery glob, the streaming-parser
mode sniff, the reservoir shuffle buffer, the upsert admission gate, the
indexing-policy lifecycle and the cost ledger.  Items are kept abstract: the
writer only concatenates their JSON serializations (`json.dumps` is a
collaborator), so the embedding is parameterized by a serialization function
`dumps : α → String`.
-/

namespace CosmosDumper

open List

/-- Join a list of strings with a separator, with no leading or trailing
separator: the shape `json.dumps(item)` fragments take inside one output
file. -/
def joinSep (sep : String) : List String → String
  | [] => ""
  | [x] => x
  | x :: y :: xs => x ++ sep ++ joinSep sep (y :: xs)

theorem joinSep_cons (sep x : String) (xs : List String) :
    joinSep sep (x :: xs) = x ++ (if xs = [] then "" else sep ++ joinSep sep xs) := by
  cases xs with
  | nil => simp [joinSep]
  | cons y ys => simp [joinSep, String.append_assoc]

theorem joinSep_append (sep : String) (l₁ l₂ : List String)
    (h₁ : l₁ ≠ []) (h₂ : l₂ ≠ []) :
    joinSep sep (l₁ ++ l₂) = joinSep sep l₁ ++ sep ++ joinSep sep l₂ := by
  induction l₁ with
  | nil => exact absurd rfl h₁
  | cons x xs ih =>
      cases xs with
      | nil =>
          cases l₂ with
          | nil => exact absurd rfl h₂
          | cons y ys => simp [joinSep, String.append_assoc]
      | cons y ys =>
          have : (x :: y :: ys) ++ l₂ = x :: ((y :: ys) ++ l₂) := rfl
          rw [this, joinSep_cons, joinSep_cons, ih (by simp)]
          simp [String.append_assoc]

/-! ## The bounded writer (`writer_worker`, src/cosmos_dumper/cli.py:87-112)

The writer drains a queue of batches until the `None` sentinel.  A queue
message is `some batch` or `none`; the drained stream is modelled as the list
of messages in arrival order.  File state is the pair
(`first_item` flag, text written so far). -/

/-- The inner `for item in batch` loop of `writer_worker`: before every item
except the very first of the file it writes the separator (`"\n"` for JSON
Lines, `",\n"` for the JSON array encoding), then the item's serialization. -/
def writeBatch (dumps : α → String) (use_jsonl : Bool) :
    Bool × String → List α → Bool × String
  | st, [] => st
  | (first_item, acc), item :: rest =>
      let acc := if !first_item then (if use_jsonl then acc ++ "\n" else acc ++ ",\n") else acc
      writeBatch dumps use_jsonl (false, acc ++ dumps item) rest

/-- The `while True` drain loop of `writer_worker`: consume messages until the
sentinel (`none`), then — for the JSON-array encoding — write the closing
`"\n]"` delimiter.  An exhausted message list closes the same way (in the
program the loop can only end at the sentinel). -/
def drainLoop (dumps : α → String) (use_jsonl : Bool) :
    Bool × String → List (Option (List α)) → String
  | (_, acc), [] => if use_jsonl then acc else acc ++ "\n]"
  | (_, acc), none :: _ => if use_jsonl then acc else acc ++ "\n]"
  | st, some batch :: rest =>
      drainLoop dumps use_jsonl (writeBatch dumps use_jsonl st batch) rest

/-- The writer task `writer_worker`: opens the file, writes `"[\n"` for the array encoding
(nothing for JSON Lines), drains the queue, and closes.  Returns the final
text of the output file. -/
def writer_worker (dumps : α → String) (use_jsonl : Bool)
    (msgs : List (Option (List α))) : String :=
  drainLoop dumps use_jsonl (true, if use_jsonl then "" else "[\n") msgs

/-- The separator between two consecutive records of one file. -/
def recordSep (use_jsonl : Bool) : String := if use_jsonl then "\n" else ",\n"

/-- The text one batch contributes to the file, given the `first_item` flag
on entry. -/
def batchText (dumps : α → String) (use_jsonl : Bool) (first_item : Bool)
    (batch : List α) : String :=
  if batch.isEmpty then ""
  else (if first_item then "" else recordSep use_jsonl) ++
    joinSep (recordSep use_jsonl) (batch.map dumps)

theorem writeBatch_spec (dumps : α → String) (use_jsonl : Bool)
    (first_item : Bool) (acc : String) (batch : List α) :
    writeBatch dumps use_jsonl (first_item, acc) batch =
      ((first_item && batch.isEmpty),
        acc ++ batchText dumps use_jsonl first_item batch) := by
  induction batch generalizing first_item acc with
  | nil => simp [writeBatch, batchText]
  | cons item rest ih =>
      rw [writeBatch, ih]
      simp only [batchText, List.isEmpty_cons, Bool.and_false, List.map_cons, joinSep_cons,
        Bool.false_and]
      cases first_item <;> cases use_jsonl <;> cases rest <;>
        simp [recordSep, String.append_assoc, String.append_empty]

theorem batchText_append (dumps : α → String) (use_jsonl : Bool)
    (first_item : Bool) (l₁ l₂ : List α) :
    batchText dumps use_jsonl first_item (l₁ ++ l₂) =
      batchText dumps use_jsonl first_item l₁ ++
        batchText dumps use_jsonl (first_item && l₁.isEmpty) l₂ := by
  cases hb : l₁.isEmpty
  · have hbne : l₁ ≠ [] := by cases l₁ <;> simp_all
    cases hbs : l₂.isEmpty
    · have hbsne : l₂ ≠ [] := by cases l₂ <;> simp_all
      have hap : (l₁ ++ l₂).isEmpty = false := by cases l₁ <;> simp_all
      simp only [batchText, hb, hbs, hap, Bool.and_false, if_false, Bool.false_eq_true,
        List.map_append]
      rw [joinSep_append _ _ _ (by simpa using hbne) (by simpa using hbsne)]
      cases first_item <;> simp [String.append_assoc]
    · have hbsnil : l₂ = [] := by cases l₂ <;> simp_all
      subst hbsnil
      rw [List.append_nil]
      simp [batchText, String.append_empty]
  · have hbnil : l₁ = [] := by cases l₁ <;> simp_all
    subst hbnil
    simp [batchText, String.empty_append, Bool.and_true]

/-- Draining `batches.map some ++ none :: rest` writes exactly the items of
`batches` (flattened) and stops at the sentinel: the messages in `rest` are
never read. -/
theorem drainLoop_spec (dumps : α → String) (use_jsonl : Bool)
    (batches : List (List α)) (rest : List (Option (List α)))
    (first_item : Bool) (acc : String) :
    drainLoop dumps use_jsonl (first_item, acc) (batches.map some ++ none :: rest) =
      (acc ++ batchText dumps use_jsonl first_item batches.flatten) ++
        (if use_jsonl then "" else "\n]") := by
  induction batches generalizing first_item acc with
  | nil =>
      cases use_jsonl <;> simp [drainLoop, batchText, String.append_empty]
  | cons batch batches ih =>
      rw [List.map_cons, List.cons_append, drainLoop, writeBatch_spec, ih,
        List.flatten_cons, batchText_append]
      simp [String.append_assoc]

/-- C3: for every sequence of batches drained by the writer until the
sentinel, the array-encoded Output File is exactly the string `"[\n"`, the
items' JSON serializations joined by `",\n"`, then `"\n]"` (a valid JSON
array), and the JSON-Lines Output File is one serialized value per line with
no wrapper; the closing delimiter is written on the sentinel, and messages
after the sentinel are never read. -/
theorem writer_worker_file_format (dumps : α → String)
    (batches : List (List α)) (rest : List (Option (List α))) :
    writer_worker dumps false (batches.map some ++ none :: rest) =
      "[\n" ++ joinSep ",\n" (batches.flatten.map dumps) ++ "\n]" ∧
    writer_worker dumps true (batches.map some ++ none :: rest) =
      joinSep "\n" (batches.flatten.map dumps) := by
  unfold writer_worker
  rw [drainLoop_spec, drainLoop_spec]
  constructor <;> cases hl : batches.flatten <;>
    simp [batchText, recordSep, joinSep, String.empty_append, String.append_empty,
      String.append_assoc]

/-! ## The rotating bounded writer (spec §4.3)

The canonical revision's size-rotating writer (`export_container_task`,
driven by `--max-file-size`) is not part of `src/`; only its tests
(`tests/test_export_split.py`) are.  It is modelled here from the spec. -/

/-- Modelled from the spec: naming of the rotated Output Files of one
collection — "first file `<collection>_export.<ext>`; subsequent files
`<collection>_export_<n>.<ext>` with n = 1, 2, …".  `i` is the 0-based file
index. -/
def rotatedFileName (collection ext : String) : Nat → String
  | 0 => collection ++ "_export." ++ ext
  | Nat.succ n => collection ++ "_export_" ++ toString (n + 1) ++ "." ++ ext

/-- The complete text of one Output File holding the serialized records
`recs`, in the declared encoding (spec §6, File formats). -/
def fileContent (use_jsonl : Bool) (recs : List String) : String :=
  if use_jsonl then joinSep "\n" recs
  else "[\n" ++ joinSep ",\n" recs ++ "\n]"

/-- State of the rotating writer: the files already closed (each the list of
its serialized records, in order), the records of the currently open file,
and that file's size (sum of the serialized sizes of its records). -/
structure RotState where
  closed : List (List String)
  current : List String
  currentSize : Nat
deriving Repr, DecidableEq

/-- Modelled from the spec: one record arriving at the rotating Bounded
Writer — "if a threshold is set and appending would exceed it for the current
file (and the file already holds ≥1 record), closes the current file … and
opens the next rotated file". -/
def rotStep (threshold : Nat) (st : RotState) (rec : String) : RotState :=
  if st.current ≠ [] ∧ threshold < st.currentSize + rec.length then
    ⟨st.closed ++ [st.current], [rec], rec.length⟩
  else
    ⟨st.closed, st.current ++ [rec], st.currentSize + rec.length⟩

/-- Modelled from the spec: the files produced by draining the whole record
stream through the rotating writer; at the sentinel the currently open file
is finalized as the last file. -/
def rotFiles (threshold : Nat) (recs : List String) : List (List String) :=
  let st := recs.foldl (rotStep threshold) ⟨[], [], 0⟩
  st.closed ++ [st.current]

/-- Modelled from the spec: the named, encoded Output Files of one
collection's export under a max-file-size threshold. -/
def rotOutput (threshold : Nat) (use_jsonl : Bool) (collection ext : String)
    (recs : List String) : List (String × String) :=
  (rotFiles threshold recs).mapIdx
    (fun i f => (rotatedFileName collection ext i, fileContent use_jsonl f))

/-- The two invariants of the rotating fold: the records of all files, in
order, are exactly the records consumed, and the tracked size of the open
file is the sum of its records' sizes. -/
theorem rotFold_invariant (threshold : Nat) (recs : List String) (st : RotState) :
    (recs.foldl (rotStep threshold) st).closed.flatten ++
        (recs.foldl (rotStep threshold) st).current =
      st.closed.flatten ++ st.current ++ recs ∧
    ((recs.foldl (rotStep threshold) st).currentSize =
        ((recs.foldl (rotStep threshold) st).current.map String.length).sum ∨
      st.currentSize ≠ (st.current.map String.length).sum) := by
  induction recs generalizing st with
  | nil => exact ⟨by simp, by tauto⟩
  | cons rec recs ih =>
      rw [List.foldl_cons]
      refine ⟨?_, ?_⟩
      · rcases (ih (rotStep threshold st rec)).1 with h
        rw [h]
        unfold rotStep
        split <;> simp [List.append_assoc]
      · rcases (ih (rotStep threshold st rec)).2 with h | h
        · exact Or.inl h
        · by_cases hst : st.currentSize = (st.current.map String.length).sum
          · exfalso
            apply h
            unfold rotStep
            split <;> simp [hst]
          · exact Or.inr hst

/-- If the fold never rotated (no file was closed beyond those already
closed), the open file absorbed every record. -/
theorem rotFold_no_rotation (threshold : Nat) (recs : List String) (st : RotState)
    (h : (recs.foldl (rotStep threshold) st).closed = st.closed) :
    (recs.foldl (rotStep threshold) st).current = st.current ++ recs := by
  have hmass := (rotFold_invariant threshold recs st).1
  rw [h, List.append_assoc] at hmass
  exact List.append_cancel_left hmass

/-- While no rotation has happened yet, the open file either holds at most
one record or fits the threshold: a further record that would push it past
the threshold forces a rotation. -/
theorem rotFold_guard (threshold : Nat) (recs : List String) (st : RotState)
    (hst : st.closed = [] → st.current.length ≤ 1 ∨ st.currentSize ≤ threshold) :
    (recs.foldl (rotStep threshold) st).closed = [] →
      (recs.foldl (rotStep threshold) st).current.length ≤ 1 ∨
        (recs.foldl (rotStep threshold) st).currentSize ≤ threshold := by
  induction recs generalizing st with
  | nil => exact hst
  | cons rec recs ih =>
      rw [List.foldl_cons]
      apply ih
      intro hclosed
      by_cases hc : st.current ≠ [] ∧ threshold < st.currentSize + rec.length
      · exfalso
        rw [rotStep, if_pos hc] at hclosed
        simpa using congrArg List.length hclosed
      · rw [rotStep, if_neg hc] at hclosed ⊢
        rcases not_and_or.mp hc with hcur | hsz
        · left
          simp [not_not.mp hcur]
        · right
          exact Nat.le_of_not_lt hsz

/-- With at least two records whose total serialized size exceeds the
threshold, the rotating writer must close at least two files. -/
theorem rotFiles_length_ge_two (threshold : Nat) (recs : List String)
    (h2 : 2 ≤ recs.length)
    (hsz : threshold < (recs.map String.length).sum) :
    2 ≤ (rotFiles threshold recs).length := by
  unfold rotFiles
  by_cases hcl : (recs.foldl (rotStep threshold) ⟨[], [], 0⟩).closed = []
  · exfalso
    have hguard := rotFold_guard threshold recs ⟨[], [], 0⟩ (fun _ => Or.inl (by simp)) hcl
    have hcur := rotFold_no_rotation threshold recs ⟨[], [], 0⟩ hcl
    simp only [List.nil_append] at hcur
    rcases (rotFold_invariant threshold recs ⟨[], [], 0⟩).2 with hs | hs
    · rcases hguard with hlen | hle
      · rw [hcur] at hlen
        omega
      · rw [hs, hcur] at hle
        omega
    · simp at hs
  · have : 1 ≤ (recs.foldl (rotStep threshold) ⟨[], [], 0⟩).closed.length := by
      cases h : (recs.foldl (rotStep threshold) ⟨[], [], 0⟩).closed
      · exact absurd h hcl
      · simp
    simp only [List.length_append, List.length_cons, List.length_nil]
    omega

/-- All records drained through the rotating writer end up in its files, in
order. -/
theorem rotFiles_flatten (threshold : Nat) (recs : List String) :
    (rotFiles threshold recs).flatten = recs := by
  unfold rotFiles
  have h := (rotFold_invariant threshold recs ⟨[], [], 0⟩).1
  simp only [List.nil_append] at h
  simpa [List.flatten_append] using h

/-- C1 counterexample: a collection holding a single record larger than the
threshold.  The total serialized size (10 bytes) exceeds the threshold
(5 bytes), yet exactly one Output File is produced, because a file is only
rotated once it already holds a record. -/
theorem rotating_writer_single_record_one_file :
    5 < ((["0123456789"] : List String).map String.length).sum ∧
    (rotOutput 5 false "orders" "json" ["0123456789"]).length = 1 := by
  exact ⟨by decide, rfl⟩

/-- C1 (amended): for a collection holding at least two records whose total
serialized size exceeds the max-file-size threshold, the rotating writer
produces more than one Output File; the i-th file is named
`<collection>_export.<ext>` for i = 0 and `<collection>_export_<i>.<ext>`
for i ≥ 1; every file is the complete encoding of its records in the
declared format (hence syntactically valid); and the files together hold
exactly the drained records, in order. -/
theorem rotating_writer_splits (threshold : Nat) (use_jsonl : Bool)
    (collection ext : String) (recs : List String)
    (h2 : 2 ≤ recs.length)
    (hsz : threshold < (recs.map String.length).sum) :
    2 ≤ (rotOutput threshold use_jsonl collection ext recs).length ∧
    (rotOutput threshold use_jsonl collection ext recs).map Prod.fst =
      (List.range (rotFiles threshold recs).length).map (rotatedFileName collection ext) ∧
    (rotOutput threshold use_jsonl collection ext recs).map Prod.snd =
      (rotFiles threshold recs).map (fileContent use_jsonl) ∧
    (rotFiles threshold recs).flatten = recs := by
  refine ⟨?_, ?_, ?_, rotFiles_flatten threshold recs⟩
  · have := rotFiles_length_ge_two threshold recs h2 hsz
    simpa [rotOutput, List.length_mapIdx] using this
  · apply List.ext_getElem
    · simp [rotOutput]
    · intro i h1 hr
      simp [rotOutput, List.getElem_mapIdx]
  · apply List.ext_getElem
    · simp [rotOutput]
    · intro i h1 hr
      simp [rotOutput, List.getElem_mapIdx]

/-- Witness for C1 (amended): two 2-byte records against a 3-byte threshold
split into two files `orders_export.json` and `orders_export_1.json`. -/
theorem rotating_writer_splits_witness :
    2 ≤ (rotOutput 3 false "orders" "json" ["11", "22"]).length ∧
    (rotOutput 3 false "orders" "json" ["11", "22"]).map Prod.fst =
      (List.range (rotFiles 3 ["11", "22"]).length).map (rotatedFileName "orders" "json") ∧
    (rotOutput 3 false "orders" "json" ["11", "22"]).map Prod.snd =
      (rotFiles 3 ["11", "22"]).map (fileContent false) ∧
    (rotFiles 3 ["11", "22"]).flatten = ["11", "22"] :=
  rotating_writer_splits 3 false "orders" "json" ["11", "22"] (by decide) (by decide)

/-! ## Import-job discovery (`import_cmd`, src/cosmos_dumper/cli.py:226-249) -/

/-- Shell-style glob matching as `glob.glob` applies it to one file name:
`*` matches any (possibly empty) run of characters, `?` any single
character, every other pattern character only itself.  `fuel` bounds the
recursion structurally; every step shortens pattern + name, so
`|pattern| + |name| + 1` is always enough. -/
def globMatchAux : Nat → List Char → List Char → Bool
  | 0, _, _ => false
  | _ + 1, [], [] => true
  | _ + 1, [], _ :: _ => false
  | fuel + 1, '*' :: ps, [] => globMatchAux fuel ps []
  | fuel + 1, '*' :: ps, c :: cs =>
      globMatchAux fuel ps (c :: cs) || globMatchAux fuel ('*' :: ps) cs
  | _ + 1, _ :: _, [] => false
  | fuel + 1, p :: ps, c :: cs => (p == c || p == '?') && globMatchAux fuel ps cs

def globMatch (ps cs : List Char) : Bool :=
  globMatchAux (ps.length + cs.length + 1) ps cs

/-- Python `s.split(marker)[0]`: the text before the first occurrence of
`marker`, or all of `s` when the marker does not occur. -/
def takeBeforeMarker (marker : List Char) : List Char → List Char
  | [] => []
  | c :: cs =>
      if marker.isPrefixOf (c :: cs) then []
      else c :: takeBeforeMarker marker cs

/-- The source collection name of an export file:
`os.path.basename(f).split("_export")[0]` (src/cosmos_dumper/cli.py:236). -/
def deriveCollection (fileName : String) : String :=
  String.mk (takeBeforeMarker "_export".toList fileName.toList)

/-- The single glob pattern `import_cmd` scans a directory with
(src/cosmos_dumper/cli.py:233): `*_export.*`. -/
def matchesExportGlob (fileName : String) : Bool :=
  globMatch "*_export.*".toList fileName.toList

/-- Python `str.endswith`, computed on the character list. -/
def strEndsWith (s suffix : String) : Bool :=
  suffix.toList.isSuffixOf s.toList

/-- The extension filter applied to globbed files
(src/cosmos_dumper/cli.py:235): `f.endswith((".json", ".jsonl"))`. -/
def hasImportExt (fileName : String) : Bool :=
  strEndsWith fileName ".json" || strEndsWith fileName ".jsonl"

/-- Job discovery of `import_cmd` over a directory listing
(src/cosmos_dumper/cli.py:232-249): glob `*_export.*`, keep `.json`/`.jsonl`
files, derive each file's source collection from its base name, apply the
optional source filter (`--from-container`) and destination filter/rename
(`--container`).  A job is a (destination collection, file) pair. -/
def discoverJobs (files : List String)
    (from_container target_container : Option String) : List (String × String) :=
  (files.filter matchesExportGlob).filterMap (fun f =>
    if hasImportExt f then
      let original := deriveCollection f
      match from_container with
      | some fc =>
          if original = fc then some (target_container.getD original, f) else none
      | none =>
          match target_container with
          | some tc => if original = tc then some (original, f) else none
          | none => some (original, f)
    else none)

/-- C2: in a directory holding exactly `foo_export.json`, `foo_export_1.json`
and `bar_export.jsonl`, with no filters, discovery yields only two import
jobs: the glob pattern `*_export.*` does not match the rotated file
`foo_export_1.json` (its name has `_export_`, not `_export.`), where the
spec's scenario requires three jobs. -/
theorem discoverJobs_drops_rotated_file :
    discoverJobs ["foo_export.json", "foo_export_1.json", "bar_export.jsonl"]
        none none =
      [("foo", "foo_export.json"), ("bar", "bar_export.jsonl")] ∧
    matchesExportGlob "foo_export_1.json" = false ∧
    hasImportExt "foo_export_1.json" = true := by
  exact ⟨rfl, rfl, rfl⟩

/-! ## Streaming-parser mode sniff (`import_file`,
src/cosmos_dumper/cli.py:315-329) -/

/-- Python `bytes.isspace` on one byte: ASCII space, tab, line feed,
carriage return, vertical tab, form feed. -/
def pyIsSpace (b : Nat) : Bool :=
  b = 32 || b = 9 || b = 10 || b = 13 || b = 11 || b = 12

/-- Python `chunk.decode(errors="ignore")` for a one-byte chunk: an ASCII byte
decodes to its character; any lone byte ≥ 0x80 is invalid UTF-8 and is
ignored, leaving the empty string. -/
def decodeIgnore1 (b : Nat) : String :=
  if b < 128 then String.mk [Char.ofNat b] else ""

/-- The sniff loop of `import_file`: read one byte at a time while
`first_char` is empty and the file is not exhausted; a whitespace byte is
skipped by the `isspace` test, and a byte that decodes to `""` leaves
`first_char` falsy, so the loop reads on.  Returns `first_char` and the
number of bytes read (the handle position when the loop ends). -/
def sniffBytes : List Nat → String × Nat
  | [] => ("", 0)
  | b :: bs =>
      if pyIsSpace b then
        let r := sniffBytes bs
        (r.1, r.2 + 1)
      else
        let c := decodeIgnore1 b
        if c = "" then
          let r := sniffBytes bs
          (r.1, r.2 + 1)
        else (c, 1)

inductive ParseMode where
  | jsonArray
  | multiValues
deriving DecidableEq, Repr

/-- A file handle: contents and read position. -/
structure FileHandle where
  data : List Nat
  pos : Nat
deriving DecidableEq, Repr

/-- The parse setup of `import_file` (src/cosmos_dumper/cli.py:318-329): run the
sniff loop (leaving the handle at the position where the loop stopped), then
`f.seek(0)`, then hand the rewound handle to `ijson.items(f, "item")` when
`first_char == "["` (JSON-array mode) and to
`ijson.items(f, "", multiple_values=True)` otherwise. -/
def importParseSetup (data : List Nat) : ParseMode × FileHandle :=
  let sniffed := sniffBytes data
  let handle : FileHandle := ⟨data, sniffed.2⟩
  let handle : FileHandle := ⟨handle.data, 0⟩
  (if sniffed.1 = "[" then ParseMode.jsonArray else ParseMode.multiValues, handle)

/-- The selector the claim describes, stated from the spec's words: the
first non-whitespace byte of the file decides the mode — `[` (0x5B) gives
JSON-array parsing, anything else concatenated-values parsing. -/
def claimedMode (data : List Nat) : ParseMode :=
  if (data.filter (fun b => !pyIsSpace b)).head? = some 91 then ParseMode.jsonArray
  else ParseMode.multiValues

/-- The first byte that is neither whitespace nor dropped by single-byte
decoding: the byte the sniff loop actually settles on. -/
def firstAsciiNonWs (data : List Nat) : Option Nat :=
  (data.filter (fun b => !pyIsSpace b && decide (b < 128))).head?

theorem decodeIgnore1_eq_bracket (b : Nat) : decodeIgnore1 b = "[" ↔ b = 91 := by
  by_cases hb : b < 128
  · unfold decodeIgnore1
    rw [if_pos hb]
    interval_cases b <;> decide
  · unfold decodeIgnore1
    rw [if_neg hb]
    constructor
    · intro h
      exact absurd h (by decide)
    · intro h
      omega

theorem decodeIgnore1_empty (b : Nat) : decodeIgnore1 b = "" ↔ ¬b < 128 := by
  unfold decodeIgnore1
  split
  · rename_i hb
    constructor
    · intro h
      have hdata := congrArg String.data h
      simp at hdata
    · intro h
      exact absurd hb h
  · rename_i hb
    exact iff_of_true rfl hb

theorem sniffBytes_bracket (data : List Nat) :
    ((sniffBytes data).1 = "[") ↔ firstAsciiNonWs data = some 91 := by
  induction data with
  | nil =>
      simp only [sniffBytes, firstAsciiNonWs, List.filter_nil, List.head?_nil]
      exact ⟨fun h => absurd h (by decide), fun h => by simp at h⟩
  | cons b bs ih =>
      rw [sniffBytes, firstAsciiNonWs]
      by_cases hs : pyIsSpace b
      · rw [if_pos hs, List.filter_cons_of_neg (by simp [hs])]
        exact ih
      · rw [if_neg hs]
        by_cases hd : decodeIgnore1 b = ""
        · have hb : ¬b < 128 := (decodeIgnore1_empty b).mp hd
          rw [if_pos hd, List.filter_cons_of_neg (by simp [hs, hb])]
          exact ih
        · have hb : b < 128 := by
            by_contra hb
            exact hd ((decodeIgnore1_empty b).mpr hb)
          rw [if_neg hd, List.filter_cons_of_pos (by simp [hs, hb])]
          simp only [List.head?_cons, Option.some.injEq]
          exact decodeIgnore1_eq_bracket b

/-- C6 counterexample: the file `é[1]` (UTF-8 bytes C3 A9 5B 31 5D).  Its
first non-whitespace character is `é`, not `[`, so the claim requires
concatenated-values parsing; the program's sniff loop drops the two
undecodable bytes and settles on `[`, choosing JSON-array parsing. -/
theorem sniff_skips_undecodable_bytes :
    (importParseSetup [195, 169, 91, 49, 93]).1 = ParseMode.jsonArray ∧
    claimedMode [195, 169, 91, 49, 93] = ParseMode.multiValues := by
  exact ⟨rfl, rfl⟩

/-- C6 (amended): for every input file, the parse setup rewinds the handle
to position 0 over the unchanged contents, and chooses JSON-array parsing
exactly when the first byte that is neither whitespace nor dropped by
single-byte decoding (for ASCII files: the first non-whitespace character)
is `[`; otherwise the file is handed to the concatenated-values parser. -/
theorem importParseSetup_spec (data : List Nat) :
    (importParseSetup data).2.pos = 0 ∧
    (importParseSetup data).2.data = data ∧
    ((importParseSetup data).1 = ParseMode.jsonArray ↔
      firstAsciiNonWs data = some 91) := by
  refine ⟨rfl, rfl, ?_⟩
  show (if (sniffBytes data).1 = "[" then ParseMode.jsonArray else ParseMode.multiValues) =
      ParseMode.jsonArray ↔ _
  by_cases h : (sniffBytes data).1 = "["
  · rw [if_pos h]
    simp only [true_iff]
    exact (sniffBytes_bracket data).mp h
  · rw [if_neg h]
    constructor
    · intro hcontra
      exact absurd hcontra (by decide)
    · intro hf
      exact absurd ((sniffBytes_bracket data).mpr hf) h

/-! ## The shuffle buffer (`import_file`, src/cosmos_dumper/cli.py:304-345)

Randomness is an oracle `rand : Nat → Nat` giving the k-th draw;
`random.randrange(n)` returns exactly the values `rand k % n`, and
`random.shuffle` (a library collaborator) is modelled as sampling without
replacement driven by the same oracle. -/

/-- The constant `SHUFFLE_BUFFER_SIZE` (src/cosmos_dumper/cli.py:306). -/
def SHUFFLE_BUFFER_SIZE : Nat := 5000

/-- One parsed item arriving at the shuffle buffer: append it; if the buffer
has reached capacity, pop the element at a random index and schedule it.
`st` is (items scheduled so far, `shuffle_buffer`). -/
def shuffleStep (cap : Nat) (r : Nat) (st : List α × List α) (item : α) :
    List α × List α :=
  let buffer := st.2 ++ [item]
  if cap ≤ buffer.length then
    let idx := r % buffer.length
    match buffer[idx]? with
    | some x => (st.1 ++ [x], buffer.eraseIdx idx)
    | none => (st.1, buffer)
  else (st.1, buffer)

/-- The `for item in items` loop with shuffling enabled; `k` numbers the
draws taken from the oracle. -/
def shuffleFold (cap : Nat) (rand : Nat → Nat) :
    Nat → List α × List α → List α → List α × List α
  | _, st, [] => st
  | k, st, item :: rest =>
      shuffleFold cap rand (k + 1) (shuffleStep cap (rand k) st item) rest

/-- Model of `random.shuffle` on the flushed buffer: repeatedly draw a
random position and emit its element (sampling without replacement), a
uniformly random permutation when the draws are uniform.  `fuel` equals the
list length at the first call. -/
def drawAll (rand : Nat → Nat) : Nat → Nat → List α → List α
  | 0, _, l => l
  | fuel + 1, k, l =>
      let idx := rand k % l.length
      match l[idx]? with
      | some x => x :: drawAll rand fuel (k + 1) (l.eraseIdx idx)
      | none => l

/-- The order in which `import_file`'s item loop schedules items for upsert
(src/cosmos_dumper/cli.py:331-345): with `--shuffle`, stream through the
reservoir, then flush the remaining buffer in `random.shuffle` order;
without, schedule each item as it is parsed. -/
def importSchedule (shuffle : Bool) (rand : Nat → Nat) (input : List α) : List α :=
  if shuffle then
    let st := shuffleFold SHUFFLE_BUFFER_SIZE rand 0 ([], []) input
    st.1 ++ drawAll rand st.2.length input.length st.2
  else input

theorem perm_cons_eraseIdx_of_getElem? {l : List α} {i : Nat} {x : α}
    (h : l[i]? = some x) : l.Perm (x :: l.eraseIdx i) := by
  induction l generalizing i with
  | nil => simp at h
  | cons a t ih =>
      cases i with
      | zero =>
          simp only [List.getElem?_cons_zero, Option.some.injEq] at h
          subst h
          simp [List.eraseIdx]
      | succ i =>
          simp only [List.getElem?_cons_succ] at h
          have ht := ih h
          calc a :: t
              ~ a :: (x :: t.eraseIdx i) := ht.cons a
            _ ~ x :: a :: t.eraseIdx i := List.Perm.swap x a _
            _ = x :: (a :: t).eraseIdx (i + 1) := by simp [List.eraseIdx]

/-- One shuffle step conserves the items: scheduled ++ buffer afterwards is
a permutation of scheduled ++ buffer ++ [the new item]. -/
theorem shuffleStep_perm (cap r : Nat) (st : List α × List α) (item : α) :
    ((shuffleStep cap r st item).1 ++ (shuffleStep cap r st item).2).Perm
      (st.1 ++ (st.2 ++ [item])) := by
  simp only [shuffleStep]
  by_cases hcap : cap ≤ (st.2 ++ [item]).length
  · rw [if_pos hcap]
    have hlen : 0 < (st.2 ++ [item]).length := by simp
    have hidx : r % (st.2 ++ [item]).length < (st.2 ++ [item]).length :=
      Nat.mod_lt _ hlen
    cases hget : (st.2 ++ [item])[r % (st.2 ++ [item]).length]? with
    | none =>
        rw [List.getElem?_eq_getElem hidx] at hget
    | some x =>
        have hperm := perm_cons_eraseIdx_of_getElem? hget
        calc (st.1 ++ [x]) ++ (st.2 ++ [item]).eraseIdx (r % (st.2 ++ [item]).length)
            = st.1 ++ (x :: (st.2 ++ [item]).eraseIdx (r % (st.2 ++ [item]).length)) := by
              simp [List.append_assoc]
          _ ~ st.1 ++ (st.2 ++ [item]) := List.Perm.append_left st.1 hperm.symm
  · rw [if_neg hcap]

/-- The streamed loop conserves the items. -/
theorem shuffleFold_perm (cap : Nat) (rand : Nat → Nat) (k : Nat)
    (st : List α × List α) (input : List α) :
    ((shuffleFold cap rand k st input).1 ++ (shuffleFold cap rand k st input).2).Perm
      (st.1 ++ st.2 ++ input) := by
  induction input generalizing k st with
  | nil => simp [shuffleFold]
  | cons item rest ih =>
      rw [shuffleFold]
      calc (shuffleFold cap rand (k + 1) (shuffleStep cap (rand k) st item) rest).1 ++
            (shuffleFold cap rand (k + 1) (shuffleStep cap (rand k) st item) rest).2
          ~ (shuffleStep cap (rand k) st item).1 ++
              (shuffleStep cap (rand k) st item).2 ++ rest := ih _ _
        _ ~ (st.1 ++ (st.2 ++ [item])) ++ rest :=
            (shuffleStep_perm cap (rand k) st item).append_right rest
        _ = st.1 ++ st.2 ++ (item :: rest) := by simp [List.append_assoc]

/-- Flushing with `random.shuffle` emits a permutation of the buffer. -/
theorem drawAll_perm (rand : Nat → Nat) (fuel k : Nat) (l : List α) :
    (drawAll rand fuel k l).Perm l := by
  induction fuel generalizing k l with
  | zero => rfl
  | succ fuel ih =>
      rw [drawAll]
      cases hget : l[rand k % l.length]? with
      | none => rfl
      | some x =>
          have hperm := perm_cons_eraseIdx_of_getElem? hget
          exact ((ih (k + 1) _).cons x).trans hperm.symm

/-- A buffer below capacity stays below capacity across one step (the
momentary occupancy inside the step is at most the capacity itself). -/
theorem shuffleStep_bound (cap r : Nat) (st : List α × List α) (item : α)
    (h : st.2.length < cap) : (shuffleStep cap r st item).2.length < cap := by
  simp only [shuffleStep]
  by_cases hcap : cap ≤ (st.2 ++ [item]).length
  · rw [if_pos hcap]
    have hlen : 0 < (st.2 ++ [item]).length := by simp
    have hidx : r % (st.2 ++ [item]).length < (st.2 ++ [item]).length :=
      Nat.mod_lt _ hlen
    cases hget : (st.2 ++ [item])[r % (st.2 ++ [item]).length]? with
    | none =>
        exact absurd hget (by rw [List.getElem?_eq_getElem hidx]; simp)
    | some x =>
        simp only [List.length_eraseIdx, hidx, if_pos]
        simp only [List.length_append, List.length_cons, List.length_nil] at *
        omega
  · rw [if_neg hcap]
    simp only [List.length_append, List.length_cons, List.length_nil] at *
    omega

theorem shuffleFold_bound (cap : Nat) (rand : Nat → Nat) (k : Nat)
    (st : List α × List α) (input : List α)
    (h : st.2.length < cap) :
    (shuffleFold cap rand k st input).2.length < cap := by
  induction input generalizing k st with
  | nil => exact h
  | cons item rest ih =>
      rw [shuffleFold]
      exact ih _ _ (shuffleStep_bound cap (rand k) st item h)

/-- C5: with shuffling enabled (capacity 5000) the sequence of items
scheduled for upsert is a permutation of the parsed input (same multiset,
each item exactly once); the reservoir stays strictly below 5000 items
between steps, so its momentary occupancy while an item is being appended
and evicted never exceeds 5000; with shuffling disabled the schedule is the
input, unmodified and in order. -/
theorem importSchedule_spec (rand : Nat → Nat) (input : List α) :
    (importSchedule true rand input).Perm input ∧
    (∀ n, (shuffleFold SHUFFLE_BUFFER_SIZE rand 0 ([], []) (input.take n)).2.length <
      SHUFFLE_BUFFER_SIZE) ∧
    importSchedule false rand input = input := by
  refine ⟨?_, ?_, rfl⟩
  · show ((shuffleFold SHUFFLE_BUFFER_SIZE rand 0 ([], []) input).1 ++
      drawAll rand (shuffleFold SHUFFLE_BUFFER_SIZE rand 0 ([], []) input).2.length
        input.length (shuffleFold SHUFFLE_BUFFER_SIZE rand 0 ([], []) input).2).Perm input
    calc (shuffleFold SHUFFLE_BUFFER_SIZE rand 0 ([], []) input).1 ++
          drawAll rand (shuffleFold SHUFFLE_BUFFER_SIZE rand 0 ([], []) input).2.length
            input.length (shuffleFold SHUFFLE_BUFFER_SIZE rand 0 ([], []) input).2
        ~ (shuffleFold SHUFFLE_BUFFER_SIZE rand 0 ([], []) input).1 ++
            (shuffleFold SHUFFLE_BUFFER_SIZE rand 0 ([], []) input).2 :=
          List.Perm.append_left _ (drawAll_perm rand _ _ _)
      _ ~ ([] : List α) ++ [] ++ input := shuffleFold_perm _ rand 0 _ input
      _ = input := by simp
  · intro n
    exact shuffleFold_bound _ rand 0 _ _ (by simp [SHUFFLE_BUFFER_SIZE])

/-! ## Container creation and the indexing-policy lifecycle
(`import_file`, src/cosmos_dumper/cli.py:257-362) -/

/-- A container's `indexingPolicy` dict, modelled as an association list
(only `indexingMode` is ever consulted; Python dict truthiness is
non-emptiness, and `dict.get` is first-binding lookup). -/
abbrev Policy := List (String × String)

/-- The creation request `import_file` issues for every job
(src/cosmos_dumper/cli.py:265-269). -/
structure CreateRequest where
  id : String
  partitionKeyPaths : List String
  partitionKeyKind : String
  indexingMode : String
deriving DecidableEq, Repr

/-- One store call observable in `import_file`'s trace. -/
inductive StoreCall where
  | createIfNotExists (req : CreateRequest)
  | getProperties
  | upsert
  | replaceContainer (policy : Policy)
deriving DecidableEq, Repr

/-- The store-side and fault environment of one `import_file` job. -/
structure ImportEnv where
  preExisting : Option Policy
  createFails : Bool
  captureFails : Bool
  restoreFails : Bool
deriving DecidableEq, Repr

/-- Result of one `import_file` job over `itemCount` parsed items. -/
structure ImportOutcome where
  finalPolicy : Option Policy
  captured : Option Policy
  trace : List StoreCall
  warnings : Nat
  errorsLogged : Nat
deriving DecidableEq, Repr

/-- The job body `import_file` (src/cosmos_dumper/cli.py:257-362), with parsing and each
upsert abstracted to their store calls: create the container if absent with
partition key path `/id` of kind `Hash` and `indexingMode: none` (a failure
is logged as a warning and the job continues); capture the current
`indexingPolicy` (a failure is logged as a warning, leaving `None`); upsert
every item; then, only if the captured policy is truthy and its
`indexingMode` is not `"none"`, call `replace_container` with the captured
policy (a failure is logged as an error and the job continues).  Every
failure modelled here is caught inside the job, so the outcome is always a
completed trace containing all the upserts. -/
def import_file (env : ImportEnv) (container_name : String) (itemCount : Nat) :
    ImportOutcome :=
  let req : CreateRequest := ⟨container_name, ["/id"], "Hash", "none"⟩
  let afterCreate : Option Policy × Nat :=
    if env.createFails then (env.preExisting, 1)
    else match env.preExisting with
      | none => (some [("indexingMode", "none")], 0)
      | some p => (some p, 0)
  let captured : Option Policy × Nat :=
    match afterCreate.1 with
    | none => (none, 1)
    | some p => if env.captureFails then (none, 1) else (some p, 0)
  let upserts : List StoreCall := List.replicate itemCount .upsert
  let restoreCond : Bool :=
    match captured.1 with
    | none => false
    | some p => !p.isEmpty && !(p.lookup "indexingMode" == some "none")
  let restored : Option Policy × List StoreCall × Nat :=
    if restoreCond then
      match captured.1 with
      | some p =>
          if env.restoreFails then (afterCreate.1, [StoreCall.replaceContainer p], 1)
          else (some p, [StoreCall.replaceContainer p], 0)
      | none => (afterCreate.1, [], 0)
    else (afterCreate.1, [], 0)
  { finalPolicy := restored.1
    captured := captured.1
    trace := StoreCall.createIfNotExists req :: StoreCall.getProperties ::
      (upserts ++ restored.2.1)
    warnings := afterCreate.2 + captured.2
    errorsLogged := restored.2.2 }

/-- C4: a pre-existing collection whose captured policy has
`indexingMode ≠ "none"` gets that policy reapplied after all the file's
upserts (and, whether or not the restore call succeeds, ends the run at its
original policy, a restore failure being logged as an error); a collection
the import itself created is never restored and stays at
`indexingMode: none`; a capture failure is logged as a warning, triggers no
restore, and the job still performs every upsert. -/
theorem indexing_lifecycle (env : ImportEnv) (name : String) (n : Nat) (p : Policy) :
    (env.preExisting = some p → env.createFails = false → env.captureFails = false →
      p.isEmpty = false → p.lookup "indexingMode" ≠ some "none" →
      (import_file env name n).trace =
        StoreCall.createIfNotExists ⟨name, ["/id"], "Hash", "none"⟩ ::
          StoreCall.getProperties ::
            (List.replicate n StoreCall.upsert ++ [StoreCall.replaceContainer p]) ∧
      (import_file env name n).finalPolicy = some p ∧
      (env.restoreFails = true → (import_file env name n).errorsLogged = 1)) ∧
    (env.preExisting = none → env.createFails = false →
      (import_file env name n).finalPolicy = some [("indexingMode", "none")] ∧
      (∀ q, StoreCall.replaceContainer q ∉ (import_file env name n).trace)) ∧
    (env.preExisting = some p → env.captureFails = true →
      1 ≤ (import_file env name n).warnings ∧
      (import_file env name n).finalPolicy = some p ∧
      (∀ q, StoreCall.replaceContainer q ∉ (import_file env name n).trace)) := by
  refine ⟨?_, ?_, ?_⟩
  · intro h1 h2 h3 h4 h5
    have hbeq : (p.lookup "indexingMode" == some "none") = false := by
      simpa using h5
    cases hr : env.restoreFails <;>
      simp [import_file, h1, h2, h3, h4, hbeq, hr]
  · intro h1 h2
    cases hcf : env.captureFails <;>
      simp [import_file, h1, h2, hcf, List.eq_nil_of_length_eq_zero]
  · intro h1 h3
    cases hc : env.createFails <;>
      simp [import_file, h1, h3, hc]

/-- Witness for C4 at concrete inputs: a pre-existing collection with policy
`indexingMode: consistent` is restored after the two upserts; a freshly
created collection stays at `indexingMode: none` with no restore call; a
capture failure logs a warning. -/
theorem indexing_lifecycle_witness :
    ((import_file ⟨some [("indexingMode", "consistent")], false, false, false⟩
        "orders" 2).trace =
      StoreCall.createIfNotExists ⟨"orders", ["/id"], "Hash", "none"⟩ ::
        StoreCall.getProperties ::
          (List.replicate 2 StoreCall.upsert ++
            [StoreCall.replaceContainer [("indexingMode", "consistent")]]) ∧
      (import_file ⟨some [("indexingMode", "consistent")], false, false, false⟩
        "orders" 2).finalPolicy = some [("indexingMode", "consistent")] ∧
      (false = true →
        (import_file ⟨some [("indexingMode", "consistent")], false, false, false⟩
          "orders" 2).errorsLogged = 1)) ∧
    (import_file ⟨none, false, false, false⟩ "orders" 2).finalPolicy =
      some [("indexingMode", "none")] ∧
    1 ≤ (import_file ⟨some [("indexingMode", "consistent")], false, true, false⟩
      "orders" 2).warnings :=
  ⟨(indexing_lifecycle ⟨some [("indexingMode", "consistent")], false, false, false⟩
      "orders" 2 [("indexingMode", "consistent")]).1 rfl rfl rfl (by decide) (by decide),
   ((indexing_lifecycle ⟨none, false, false, false⟩ "orders" 2 []).2.1 rfl rfl).1,
   ((indexing_lifecycle ⟨some [("indexingMode", "consistent")], false, true, false⟩
      "orders" 2 [("indexingMode", "consistent")]).2.2 rfl rfl).1⟩

/-- C10: whatever the source collection's partition key or policy was, the
only creation request `import_file` ever issues is for partition key path
`/id` of kind `Hash` with `indexingMode: none`, and it is the job's very
first store call; when creation/verification fails a warning is logged and
the job still performs all its upserts. -/
theorem import_creates_disabled_container (env : ImportEnv) (name : String) (n : Nat) :
    (∀ r, StoreCall.createIfNotExists r ∈ (import_file env name n).trace →
      r = ⟨name, ["/id"], "Hash", "none"⟩) ∧
    (import_file env name n).trace.head? =
      some (StoreCall.createIfNotExists ⟨name, ["/id"], "Hash", "none"⟩) ∧
    (env.createFails = true → 1 ≤ (import_file env name n).warnings ∧
      (List.replicate n StoreCall.upsert).Sublist (import_file env name n).trace) := by
  refine ⟨?_, rfl, ?_⟩
  · intro r hr
    rcases env with ⟨pre, cf, gf, rf⟩
    cases pre with
    | none =>
        cases cf <;> cases gf <;> cases rf <;> simp [import_file] at hr <;> simp_all
    | some p =>
        by_cases hp : ¬p = [] ∧ ¬List.lookup "indexingMode" p = some "none" <;>
          cases cf <;> cases gf <;> cases rf <;> simp [import_file, hp] at hr <;>
          simp_all
  · intro h
    constructor
    · simp [import_file, h]
    · show (List.replicate n StoreCall.upsert).Sublist
        (StoreCall.createIfNotExists _ :: StoreCall.getProperties ::
          (List.replicate n StoreCall.upsert ++ _))
      exact ((List.sublist_append_left _ _).cons _).cons _

/-- Witness for C10: with a pre-existing source policy carrying a custom
partition key irrelevant to the request, and creation failing, the first
call is still the `/id`-Hash-no-indexing creation, a warning is logged, and
the single upsert still happens. -/
theorem import_creates_disabled_container_witness :
    (∀ r, StoreCall.createIfNotExists r ∈
        (import_file ⟨some [("indexingMode", "lazy")], true, false, false⟩
          "events" 1).trace →
      r = ⟨"events", ["/id"], "Hash", "none"⟩) ∧
    (import_file ⟨some [("indexingMode", "lazy")], true, false, false⟩
      "events" 1).trace.head? =
      some (StoreCall.createIfNotExists ⟨"events", ["/id"], "Hash", "none"⟩) ∧
    (1 ≤ (import_file ⟨some [("indexingMode", "lazy")], true, false, false⟩
        "events" 1).warnings ∧
      (List.replicate 1 StoreCall.upsert).Sublist
        (import_file ⟨some [("indexingMode", "lazy")], true, false, false⟩
          "events" 1).trace) :=
  ⟨(import_creates_disabled_container _ "events" 1).1,
   (import_creates_disabled_container _ "events" 1).2.1,
   (import_creates_disabled_container
      ⟨some [("indexingMode", "lazy")], true, false, false⟩ "events" 1).2.2 rfl⟩

/-! ## The upsert admission gate (`upsert_with_semaphore` / `process_item`,
src/cosmos_dumper/cli.py:255-313) -/

/-- Abstract state of the import scheduler: the semaphore's free permits,
the tasks created but not yet holding a permit, the upserts in flight
(holding a permit), and the finished tasks.  The program's `active_tasks`
set is `pending + running`: the done-callback discards finished tasks. -/
structure GateState where
  free : Nat
  pending : Nat
  running : Nat
  finished : Nat
deriving DecidableEq, Repr

/-- The tasks scheduled but not yet finished. -/
def GateState.active (s : GateState) : Nat := s.pending + s.running

/-- Initially the semaphore `asyncio.Semaphore(args.concurrency)` is full and no tasks exist. -/
def gateInit (N : Nat) : GateState := ⟨N, 0, 0, 0⟩

/-- The events of the import scheduler.  `schedule` is `process_item`
creating an upsert task: it is enabled only while fewer than `N + 20` tasks
are active, because after a creation that reaches the bound the loop blocks
in `asyncio.wait(..., FIRST_COMPLETED)` until some task finishes.  `acquire`
is a task entering `async with semaphore` when a permit is free; `finish` is
its upsert completing — in success or failure — which leaves the `async
with` block and releases the permit. -/
inductive GateStep (N : Nat) : GateState → GateState → Prop
  | schedule (s : GateState) :
      s.active < N + 20 →
      GateStep N s ⟨s.free, s.pending + 1, s.running, s.finished⟩
  | acquire (s : GateState) :
      0 < s.free → 0 < s.pending →
      GateStep N s ⟨s.free - 1, s.pending - 1, s.running + 1, s.finished⟩
  | finish (s : GateState) :
      0 < s.running →
      GateStep N s ⟨s.free + 1, s.pending, s.running - 1, s.finished + 1⟩

/-- States reachable from the start of an import job with concurrency N. -/
def GateReachable (N : Nat) (s : GateState) : Prop :=
  Relation.ReflTransGen (GateStep N) (gateInit N) s

theorem gate_invariant (N : Nat) (s : GateState) (h : GateReachable N s) :
    s.free + s.running = N ∧ s.active ≤ N + 20 := by
  induction h with
  | refl => exact ⟨rfl, by simp [gateInit, GateState.active]⟩
  | tail _ hstep ih =>
      cases hstep with
      | schedule ht =>
          simp only [GateState.active] at *
          omega
      | acquire hfree hpend =>
          simp only [GateState.active] at *
          omega
      | finish hrun =>
          simp only [GateState.active] at *
          omega

/-- C7: in every state reachable with concurrency limit N, at most N upsert
operations are in flight (a permit is held from before the upsert is issued
until its completion, success or failure), and at most N + 20 tasks are
scheduled but unfinished — the loop waits for a completion before creating
a task beyond that bound. -/
theorem admission_gate_bounds (N : Nat) (s : GateState) (h : GateReachable N s) :
    s.running ≤ N ∧ s.active ≤ N + 20 := by
  have hinv := gate_invariant N s h
  exact ⟨by omega, hinv.2⟩

/-- Witness for C7: with limit 3, the state after scheduling one task and
letting it acquire a permit is reachable and within both bounds. -/
theorem admission_gate_bounds_witness :
    (⟨2, 0, 1, 0⟩ : GateState).running ≤ 3 ∧
      (⟨2, 0, 1, 0⟩ : GateState).active ≤ 3 + 20 :=
  admission_gate_bounds 3 ⟨2, 0, 1, 0⟩
    (Relation.ReflTransGen.tail
      (Relation.ReflTransGen.tail Relation.ReflTransGen.refl
        (GateStep.schedule (gateInit 3) (by simp [gateInit, GateState.active])))
      (GateStep.acquire ⟨3, 1, 0, 0⟩ (by simp) (by simp)))

/-! ## Export error isolation (`export_cmd`, src/cosmos_dumper/cli.py:63-203) -/

/-- One partition range's fetch stream: the pages pushed to the queue before
the iteration either ends normally or raises. -/
structure RangeData (α : Type) where
  batches : List (List α)
  fetchFails : Bool
deriving DecidableEq, Repr

/-- One collection's export environment. -/
structure CollectionEnv (α : Type) where
  name : String
  enumFails : Bool
  ranges : List (RangeData α)
deriving DecidableEq, Repr

/-- The range worker `fetch_range` (src/cosmos_dumper/cli.py:141-158): pages are pushed and
counted until the stream ends or raises; the `except` inside the worker logs
and returns the count accumulated so far, so a fetch failure never
propagates to `export_container`. -/
def fetch_range (r : RangeData α) : Nat :=
  (r.batches.map List.length).sum

structure ExportOutcome where
  writerCancelled : Bool
  completedLog : Bool
  itemCount : Nat
deriving DecidableEq, Repr

/-- The per-collection export `export_container` (src/cosmos_dumper/cli.py:114-180): enumerate the
feed ranges (an exception here reaches the outer handler, which logs and
cancels the writer task), gather all `fetch_range` workers (whose failures
are swallowed inside), send the sentinel, await the writer and log success
with the summed count. -/
def export_container (env : CollectionEnv α) : ExportOutcome :=
  match (if env.enumFails then Except.error "read_feed_ranges"
      else Except.ok env.ranges : Except String (List (RangeData α))) with
  | .error _ => ⟨true, false, 0⟩
  | .ok ranges => ⟨false, true, (ranges.map fetch_range).sum⟩

/-- The run driver `export_cmd` (src/cosmos_dumper/cli.py:63-203): a store-handle/auth
failure aborts the whole run; otherwise every container is exported through
its own `export_container`, whose outcome depends only on that
collection's environment. -/
def export_cmd (handleFails : Bool) (colls : List (CollectionEnv α)) :
    Except String (List ExportOutcome) :=
  if handleFails then .error "CosmosClient" else .ok (colls.map export_container)

/-- C8 counterexample: a collection whose only partition range pushes one
batch and then fails mid-fetch.  The claim requires the collection to be
abandoned with its writer cancelled; the program swallows the failure inside
`fetch_range`, never cancels the writer, finalizes the file and logs the
per-collection success line with the partial count. -/
theorem fetch_failure_does_not_abandon_collection :
    (⟨[[0]], true⟩ : RangeData Nat).fetchFails = true ∧
    (export_container (⟨"orders", false, [⟨[[0]], true⟩]⟩ : CollectionEnv Nat)).writerCancelled
      = false ∧
    (export_container (⟨"orders", false, [⟨[[0]], true⟩]⟩ : CollectionEnv Nat)).completedLog
      = true ∧
    (export_container (⟨"orders", false, [⟨[[0]], true⟩]⟩ : CollectionEnv Nat)).itemCount
      = 1 :=
  ⟨rfl, rfl, rfl, rfl⟩

/-- C8 (amended): only a store-handle/auth failure aborts the run; with a
valid handle every collection gets its own outcome, computed independently
of its siblings.  A feed-range enumeration failure abandons that collection
(its writer task is cancelled, no success line); a mid-fetch failure
abandons only the failing range — the collection's writer is not cancelled
and its export completes with the items the ranges managed to push. -/
theorem export_isolation (handleFails : Bool) (colls : List (CollectionEnv α))
    (env : CollectionEnv α) :
    (handleFails = true → export_cmd handleFails colls = Except.error "CosmosClient") ∧
    (handleFails = false →
      export_cmd handleFails colls = Except.ok (colls.map export_container)) ∧
    (export_container env).writerCancelled = env.enumFails ∧
    (export_container env).completedLog = !env.enumFails ∧
    (env.enumFails = false →
      (export_container env).itemCount = (env.ranges.map fetch_range).sum) := by
  refine ⟨?_, ?_, ?_, ?_, ?_⟩
  · intro h
    simp [export_cmd, h]
  · intro h
    simp [export_cmd, h]
  · cases h : env.enumFails <;> simp [export_container, h]
  · cases h : env.enumFails <;> simp [export_container, h]
  · intro h
    simp [export_container, h]

/-- Witness for C8 (amended): a two-collection run with a working handle —
one collection failing enumeration, the sibling completing — and an aborted
run under a handle failure. -/
theorem export_isolation_witness :
    (export_cmd true ([] : List (CollectionEnv Nat)) = Except.error "CosmosClient") ∧
    (export_cmd false
        ([⟨"a", true, []⟩, ⟨"b", false, [⟨[[0], [1, 2]], false⟩]⟩] : List (CollectionEnv Nat)) =
      Except.ok [⟨true, false, 0⟩, ⟨false, true, 3⟩]) ∧
    (export_container (⟨"a", true, []⟩ : CollectionEnv Nat)).writerCancelled = true :=
  ⟨(export_isolation true [] ⟨"a", true, []⟩).1 rfl,
   by
    rw [(export_isolation false
        ([⟨"a", true, []⟩, ⟨"b", false, [⟨[[0], [1, 2]], false⟩]⟩] : List (CollectionEnv Nat))
        ⟨"a", true, []⟩).2.1 rfl]
    rfl,
   (export_isolation false ([] : List (CollectionEnv Nat)) ⟨"a", true, []⟩).2.2.1⟩

/-! ## The cost ledger (`response_hook`, src/cosmos_dumper/cli.py:127-131
and 284-287) -/

/-- One cost-reporting event: the collection whose response hook fired and
the parsed `x-ms-request-charge` header (floats are modelled as rationals). -/
structure CostEvent where
  collection : String
  charge : ℚ
deriving DecidableEq

/-- Accumulate charges the way every `response_hook` does:
`ru += float(headers.get("x-ms-request-charge", 0))`, starting from `0.0`. -/
def accumCharges (events : List CostEvent) : ℚ :=
  events.foldl (fun acc e => acc + e.charge) 0

/-- The global running total `total_ru` after a list of hook events. -/
def total_ru (events : List CostEvent) : ℚ :=
  accumCharges events

/-- The per-collection running total `container_ru`: only the hooks fired
for that collection's queries contribute. -/
def container_ru (c : String) (events : List CostEvent) : ℚ :=
  accumCharges (events.filter (fun e => e.collection = c))

theorem foldl_add_charge (events : List CostEvent) (a : ℚ) :
    events.foldl (fun acc e => acc + e.charge) a =
      a + (events.map (fun e => e.charge)).sum := by
  induction events generalizing a with
  | nil => simp
  | cons e es ih =>
      rw [List.foldl_cons, List.map_cons, List.sum_cons, ih]
      ring

theorem accumCharges_eq_sum (events : List CostEvent) :
    accumCharges events = (events.map (fun e => e.charge)).sum := by
  rw [accumCharges, foldl_add_charge]
  ring

theorem accumCharges_append (l₁ l₂ : List CostEvent) :
    accumCharges (l₁ ++ l₂) = accumCharges l₁ + accumCharges l₂ := by
  simp [accumCharges_eq_sum]

theorem accumCharges_nonneg (events : List CostEvent)
    (hnn : ∀ e ∈ events, 0 ≤ e.charge) : 0 ≤ accumCharges events := by
  rw [accumCharges_eq_sum]
  apply List.sum_nonneg
  intro q hq
  rcases List.mem_map.mp hq with ⟨e, he, rfl⟩
  exact hnn e he

/-- C9: assuming every provider-reported request charge is nonnegative, the
global RU total and each per-collection RU total start at zero and are
nondecreasing from each cost-reporting event to the next. -/
theorem cost_ledger_monotone (events : List CostEvent)
    (hnn : ∀ e ∈ events, 0 ≤ e.charge) :
    total_ru [] = 0 ∧
    (∀ c, container_ru c [] = 0) ∧
    (∀ n, total_ru (events.take n) ≤ total_ru (events.take (n + 1))) ∧
    (∀ c n, container_ru c (events.take n) ≤ container_ru c (events.take (n + 1))) := by
  refine ⟨rfl, fun c => rfl, ?_, ?_⟩
  · intro n
    rw [total_ru, total_ru, List.take_succ, accumCharges_append]
    have : 0 ≤ accumCharges (events[n]?.toList) := by
      apply accumCharges_nonneg
      intro e he
      cases hg : events[n]? with
      | none => rw [hg] at he; simp at he
      | some f =>
          rw [hg] at he
          simp only [Option.toList_some, List.mem_singleton] at he
          subst he
          exact hnn e (List.getElem?_mem hg)
    linarith
  · intro c n
    rw [container_ru, container_ru, List.take_succ, List.filter_append,
      accumCharges_append]
    have : 0 ≤ accumCharges ((events[n]?.toList).filter (fun e => e.collection = c)) := by
      apply accumCharges_nonneg
      intro e he
      have hmem := List.mem_of_mem_filter he
      cases hg : events[n]? with
      | none => rw [hg] at hmem; simp at hmem
      | some f =>
          rw [hg] at hmem
          simp only [Option.toList_some, List.mem_singleton] at hmem
          subst hmem
          exact hnn e (List.getElem?_mem hg)
    linarith

/-- Witness for C9 at a concrete two-event run. -/
theorem cost_ledger_monotone_witness :
    total_ru [] = 0 ∧
    (∀ c, container_ru c [] = 0) ∧
    (∀ n, total_ru (([⟨"orders", 3⟩, ⟨"users", 2⟩] : List CostEvent).take n) ≤
      total_ru (([⟨"orders", 3⟩, ⟨"users", 2⟩] : List CostEvent).take (n + 1))) ∧
    (∀ c n, container_ru c (([⟨"orders", 3⟩, ⟨"users", 2⟩] : List CostEvent).take n) ≤
      container_ru c (([⟨"orders", 3⟩, ⟨"users", 2⟩] : List CostEvent).take (n + 1))) :=
  cost_ledger_monotone [⟨"orders", 3⟩, ⟨"users", 2⟩]
    (by
      intro e he
      fin_cases he <;> norm_num)

end CosmosDumper
